import Mathlib

set_option linter.unusedVariables false

/-!
Verification model of the nodec asynchronous request layer (the repository's
`async` translation unit, built over libhandler).

The C code is shallowly embedded: request nodes live in an explicit heap of
`async_request_t` records addressed by numeric ids, pointer fields are a small
inductive (`NULL`, the sentinel head embedded in the handler-local state, or a
heap node), and every operation of the source is an explicit state transformer
that performs the same sequence of field reads and writes as the C function it
is named after.  `lh_value` is modelled as `Int` (it is `long long` in C).
-/

/-- C `lh_value_int(i)`: an `int` widened to `lh_value` (`long long`), exact. -/
def lh_value_int (i : Int) : Int := i

/-- C `lh_int_value(v)`: the cast `(int)v`, i.e. truncation of a wider value to
32-bit two's complement. -/
def lh_int_value (v : Int) : Int := (v + 2 ^ 31) % 2 ^ 32 - 2 ^ 31

/-- C `lh_value_null`. -/
def lh_value_null : Int := 0

/-- An exception as allocated by `lh_exception_alloc_strdup(code, msg)`:
the error code together with the copied message string. -/
structure lh_exception where
  data : Int
  msg : String
deriving DecidableEq, Repr

/-- `check_uv_err(uverr)`: throw on a negative libuv status code, carrying the
platform error string `uv_strerror(uverr)`.  The external `uv_strerror` is
passed in as the function `strerror`. -/
def check_uv_err (strerror : Int → String) (uverr : Int) : Except lh_exception Unit :=
  if uverr < 0 then .error ⟨uverr, strerror uverr⟩ else .ok ()

/-- The value `asyncx_await(uvreq)` returns once its request is resumed with
status `err`: the default strategy resumes the continuation with
`lh_value_int(err)` (see `async_resume_default` in the source) and the generated
wrapper `async_req_await` converts back with `lh_int_value`.  The C function
body contains no `lh_throw`, so the result type has no error case. -/
def asyncx_await (err : Int) : Int := lh_int_value (lh_value_int err)

/-- `async_await(req)`: `check_uv_err(asyncx_await(req))`. -/
def async_await (strerror : Int → String) (err : Int) : Except lh_exception Unit :=
  check_uv_err strerror (asyncx_await err)

/-- A `const cancel_scope_t*`: either `NULL` (the root ambient scope, which is
what `with_outer_cancel_scope()` installs) or a node created by
`_cancel_scope_alloc` holding a parent pointer.  The `id` tells distinct
allocations apart. -/
inductive ScopePtr where
  | null : ScopePtr
  | node (id : Nat) (parent : ScopePtr) : ScopePtr
deriving DecidableEq, Repr

/-- `in_scope_of(scope, top)`:
`while (scope != NULL && scope != top) scope = scope->parent; return scope == top;`. -/
def in_scope_of : ScopePtr → ScopePtr → Bool
  | .null, top => decide (ScopePtr.null = top)
  | .node i p, top =>
    if ScopePtr.node i p = top then true else in_scope_of p top

/-- The pointer chain from `scope` following `parent` pointers, inclusive of
`scope` itself and ending with the `NULL` root scope. -/
def scope_chain : ScopePtr → List ScopePtr
  | .null => [.null]
  | .node i p => .node i p :: scope_chain p

/-- A pointer to an `async_request_t`: `NULL`, the sentinel head
`&local->requests` embedded in the handler-local state, or a heap node. -/
inductive ReqPtr where
  | null : ReqPtr
  | sentinel : ReqPtr
  | node (id : Nat) : ReqPtr
deriving DecidableEq, Repr

/-- The two `async_resume_fun*` values occurring in the source:
`&async_resume_default` and `&_channel_async_req_resume`. -/
inductive Strategy where
  | default : Strategy
  | channel : Strategy
deriving DecidableEq, Repr

/-- `struct _async_request_t`.  `resume` is the opaque `lh_resume` continuation
handle (`none` = `NULL`), `localv` is the C field `local` (an `lh_value`),
`uvreq` the back-reference to the libuv request (`none` = `NULL`). -/
structure async_request_t where
  next : ReqPtr
  prev : ReqPtr
  resume : Option Nat
  localv : Int
  scope : ScopePtr
  uvreq : Option Nat
  resumefun : Option Strategy
deriving DecidableEq, Repr

/-- The heap of allocated request nodes, newest first. -/
abbrev Heap := List (Nat × async_request_t)

def heapGet : Heap → Nat → Option async_request_t
  | [], _ => none
  | (j, r) :: h, i => if j = i then some r else heapGet h i

def heapModify : Heap → Nat → (async_request_t → async_request_t) → Heap
  | [], _, _ => []
  | (j, r) :: h, i, f =>
    if j = i then (j, f r) :: heapModify h i f else (j, r) :: heapModify h i f

def heapFree : Heap → Nat → Heap
  | [], _ => []
  | (j, r) :: h, i =>
    if j = i then heapFree h i else (j, r) :: heapFree h i

/-- `struct _async_local_t`: the bound event loop (an opaque pointer value) and
the embedded sentinel head of the request registry. -/
structure async_local_t where
  loop : Int
  requests : async_request_t
deriving DecidableEq, Repr

/-- The state a root async handler instance operates on: its handler-local
state, the heap of live request nodes, an allocation counter, and the `data`
fields of the libuv requests involved. -/
structure AsyncState where
  alocal : async_local_t
  heap : Heap
  nextId : Nat
  uvdata : List (Nat × Option Nat)
deriving DecidableEq, Repr

/-- Dereference an `async_request_t*`. -/
def readReq (s : AsyncState) : ReqPtr → Option async_request_t
  | .null => none
  | .sentinel => some s.alocal.requests
  | .node i => heapGet s.heap i

/-- Update the record an `async_request_t*` points to (no-op on `NULL`; all
`NULL` cases below are explicitly guarded, exactly as in the C source). -/
def writeReq (s : AsyncState) (p : ReqPtr) (f : async_request_t → async_request_t) : AsyncState :=
  match p with
  | .null => s
  | .sentinel => { s with alocal := { s.alocal with requests := f s.alocal.requests } }
  | .node i => { s with heap := heapModify s.heap i f }

/-- Read `uvreq->data` for the libuv request `u` (`none` = `NULL`). -/
def uvGet : List (Nat × Option Nat) → Nat → Option Nat
  | [], _ => none
  | (v, d) :: m, u => if v = u then d else uvGet m u

/-- Write `uvreq->data` for the libuv request `u`. -/
def uvSet (m : List (Nat × Option Nat)) (u : Nat) (d : Option Nat) : List (Nat × Option Nat) :=
  (u, d) :: m

/-- How an operation function ends: `lh_tail_resume(r, localv, res)` or a plain
`return res` (for `req_await` this exits the handler back to the event loop
without resuming the continuation). -/
inductive OpOutcome where
  | tailResume (localv : Int) (res : Int) : OpOutcome
  | exit (res : Int) : OpOutcome
deriving DecidableEq, Repr

/-- An all-zero `async_request_t`, as produced by `nodec_zalloc`. -/
def zeroRequest : async_request_t :=
  { next := .null, prev := .null, resume := none, localv := 0,
    scope := .null, uvreq := none, resumefun := none }

/-- `_async_req_await(r, local, arg)` of the root handler: store the captured
continuation and the handler-local value into the request, install the default
resumption strategy only if none is attached yet, and return `lh_value_null`,
exiting the handler back to the event loop.  (The C asserts `req != NULL`,
`req->uvreq != NULL` and `req->uvreq->data == req` hold on this path.) -/
def _async_req_await (resume : Option Nat) (localv : Int) (s : AsyncState) (rid : Nat) :
    AsyncState × OpOutcome :=
  let s1 := writeReq s (.node rid) fun q =>
    { q with localv := localv, resume := resume,
             resumefun := match q.resumefun with
                          | none => some .default
                          | some f => some f }
  (s1, .exit lh_value_null)

/-- `_async_uv_loop`: tail-resume with the loop stored in the handler-local
state; no state is mutated. -/
def _async_uv_loop (s : AsyncState) (localv : Int) : AsyncState × OpOutcome :=
  (s, .tailResume localv s.alocal.loop)

/-- The registry insertion performed by `_async_req_register`: prepend request
`rid` right after the sentinel, fixing up the old head's back pointer. -/
def _async_req_register_upd (s : AsyncState) (rid : Nat) : AsyncState :=
  -- req->next = local->requests.next;
  let nx := s.alocal.requests.next
  let s1 := writeReq s (.node rid) fun q => { q with next := nx }
  -- if (req->next != NULL) req->next->prev = req;  (link back)
  let s2 := if nx ≠ ReqPtr.null then writeReq s1 nx (fun q => { q with prev := .node rid }) else s1
  -- req->prev = &local->requests;
  let s3 := writeReq s2 (.node rid) fun q => { q with prev := .sentinel }
  -- local->requests.next = req;
  writeReq s3 .sentinel fun q => { q with next := .node rid }

/-- `_async_req_register` of the root handler: insert and tail-resume with
`lh_value_null`. -/
def _async_req_register (s : AsyncState) (localv : Int) (rid : Nat) : AsyncState × OpOutcome :=
  (_async_req_register_upd s rid, .tailResume localv lh_value_null)

/-- Result of `_async_release`: either the state is freed cleanly or one of its
`assert`s fires (the invariant-violation path). -/
inductive ReleaseResult where
  | released : ReleaseResult
  | assertFailed : ReleaseResult
deriving DecidableEq, Repr

/-- `_async_release(localv)`: `assert(local != NULL)`,
`assert(local->requests.next == NULL)`, then `free(local)`. -/
def _async_release (localArg : Option async_local_t) : ReleaseResult :=
  match localArg with
  | none => .assertFailed
  | some l => if l.requests.next = ReqPtr.null then .released else .assertFailed

/-- `lh_opkind` of libhandler. -/
inductive lh_opkind where
  | OP_NULL | OP_NORESUMEX | OP_NORESUME | OP_TAIL_NOOP | OP_TAIL | OP_SCOPED | OP_GENERAL
deriving DecidableEq, Repr

/-- The operation table `_async_ops` of the root handler: operation kind and
operation tag name for each handled operation, in declaration order. -/
def _async_ops : List (lh_opkind × String) :=
  [(.OP_GENERAL, "async/req_await"),
   (.OP_TAIL_NOOP, "async/uv_loop"),
   (.OP_TAIL_NOOP, "async/req_register")]

/-- The operation table `_channel_async_ops` of the channel adapter handler. -/
def _channel_async_ops : List (lh_opkind × String) :=
  [(.OP_GENERAL, "async/req_await"),
   (.OP_TAIL, "async/uv_loop"),
   (.OP_TAIL, "async/req_register")]

/-- Result of `async_handler`: the returned `lh_value` and the handler-local
state that was installed, if any. -/
structure HandlerInstall where
  result : Int
  installed : Option async_local_t
deriving DecidableEq, Repr

/-- `async_handler(loop, action, arg)`: `calloc` the handler-local state
(allocation may fail: `callocOk = false`, in which case the function returns
`lh_value_null` at once), set its fields, and run the body under the handler;
`handle` stands for `lh_handle(&_async_def, lh_value_ptr(local), action, arg)`
and is never invoked on the failure path. -/
def async_handler (callocOk : Bool) (loop : Int) (handle : async_local_t → Int) : HandlerInstall :=
  if callocOk then
    -- calloc zero-fills; then: local->loop = loop; requests.next = requests.prev = NULL;
    let l : async_local_t :=
      { loop := loop, requests := { zeroRequest with next := .null, prev := .null } }
    { result := handle l, installed := some l }
  else
    { result := lh_value_null, installed := none }

/-- `async_loop()` as evaluated under a root handler: yield `async/uv_loop`,
answered by `_async_uv_loop`, which tail-resumes delivering its result. -/
def async_loop (parent : AsyncState) (plocalv : Int) : AsyncState × Int :=
  match _async_uv_loop parent plocalv with
  | (s, .tailResume _ v) => (s, v)
  | (s, .exit v) => (s, v)

/-- `_channel_async_uv_loop`: pass through to the enclosing handler via
`async_loop()` and tail-resume with its answer. -/
def _channel_async_uv_loop (parent : AsyncState) (plocalv : Int) (localv : Int) :
    AsyncState × OpOutcome :=
  let pv := async_loop parent plocalv
  (pv.1, .tailResume localv pv.2)

/-- `async_req_register(req)` as evaluated under a root handler: yield
`async/req_register`, answered by `_async_req_register`. -/
def async_req_register (parent : AsyncState) (plocalv : Int) (rid : Nat) : AsyncState × Int :=
  match _async_req_register parent plocalv rid with
  | (s, .tailResume _ v) => (s, v)
  | (s, .exit v) => (s, v)

/-- `_channel_async_req_register`: pass the registration through to the
enclosing handler, then tail-resume with `lh_value_null`. -/
def _channel_async_req_register (parent : AsyncState) (plocalv : Int) (localv : Int) (rid : Nat) :
    AsyncState × OpOutcome :=
  let pv := async_req_register parent plocalv rid
  (pv.1, .tailResume localv lh_value_null)

/-- `_channel_async_req_await`: capture continuation and local value exactly as
the root handler does, but install the channel resumption strategy
(`&_channel_async_req_resume`) if none is attached yet; exit without resuming. -/
def _channel_async_req_await (resume : Option Nat) (localv : Int) (s : AsyncState) (rid : Nat) :
    AsyncState × OpOutcome :=
  let s1 := writeReq s (.node rid) fun q =>
    { q with resume := resume, localv := localv,
             resumefun := match q.resumefun with
                          | none => some .channel
                          | some f => some f }
  (s1, .exit lh_value_null)

/-- `async_request_alloc(uvreq)`: zero-allocate a request node, link it to the
libuv request (`uvreq->data = req; req->uvreq = uvreq`), record the ambient
cancellation scope, and register it with the enclosing root handler
(`async_req_register`, answered by `_async_req_register`).  Returns the id of
the new request. -/
def async_request_alloc (s : AsyncState) (scope : ScopePtr) (u : Nat) : AsyncState × Nat :=
  let rid := s.nextId
  let s1 : AsyncState := { s with heap := (rid, zeroRequest) :: s.heap, nextId := rid + 1 }
  let s2 : AsyncState := { s1 with uvdata := uvSet s1.uvdata u (some rid) }
  let s3 := writeReq s2 (.node rid) fun q => { q with uvreq := some u, scope := scope }
  (_async_req_register_upd s3 rid, rid)

/-- One recorded invocation `(*resumefun)(resume, local, uvreq, err)`. -/
structure ResumeEvent where
  rid : Nat
  resumefun : Option Strategy
  resume : Option Nat
  localv : Int
  uvreq : Nat
  err : Int
deriving DecidableEq, Repr

/-- One recorded call `lh_release_resume(resume, local, res)`. -/
structure ReleaseCall where
  resume : Nat
  localv : Int
  res : Int
deriving DecidableEq, Repr

/-- `async_resume_default(resume, local, req, err)`: release-resume the captured
continuation with `lh_value_int(err)` when it is non-`NULL`.  The result lists
the release-resume calls performed. -/
def async_resume_default (resume : Option Nat) (localv : Int) (err : Int) : List ReleaseCall :=
  match resume with
  | none => []
  | some r => [{ resume := r, localv := localv, res := lh_value_int err }]

/-- `async_request_resume(req, uvreq, err)`: if the request still holds its
back-reference, clear `uvreq->data` and `req->uvreq`, unlink the request from
the registry (a previous element always exists thanks to the sentinel), capture
continuation, carrier value and strategy, free the node, and invoke the
strategy (recorded as a `ResumeEvent`); otherwise do nothing. -/
def async_request_resume (s : AsyncState) (rid : Nat) (u : Nat) (err : Int) :
    AsyncState × List ResumeEvent :=
  match heapGet s.heap rid with
  | none => (s, [])
  | some req =>
    -- assert(req->uvreq == NULL || req->uvreq == uvreq);
    if req.uvreq ≠ none then
      -- uvreq->data = NULL;  (resume at most once)
      let s1 : AsyncState := { s with uvdata := uvSet s.uvdata u none }
      -- req->uvreq = NULL;
      let s2 := writeReq s1 (.node rid) fun q => { q with uvreq := none }
      -- async_request_t* prev = req->prev;
      let prev := req.prev
      let s3 :=
        if prev ≠ ReqPtr.null then
          -- prev->next = req->next;
          let t1 := writeReq s2 prev fun q => { q with next := req.next }
          -- if (req->next != NULL) req->next->prev = prev;  (link back)
          let t2 := if req.next ≠ ReqPtr.null then
                      writeReq t1 req.next fun q => { q with prev := prev }
                    else t1
          -- req->next = NULL; req->prev = NULL;
          writeReq t2 (.node rid) fun q => { q with next := .null, prev := .null }
        else s2
      -- capture resumefun, resume, local; free(req); (*resumefun)(...)
      match heapGet s3.heap rid with
      | none => (s3, [])
      | some req2 =>
        let s4 : AsyncState := { s3 with heap := heapFree s3.heap rid }
        (s4, [{ rid := rid, resumefun := req2.resumefun, resume := req2.resume,
                localv := req2.localv, uvreq := u, err := err }])
    else (s, [])

/-- `async_req_resume(uvreq, err)`: the completion-callback entry point.  Look
up the request through `uvreq->data`; when the back-reference is `NULL` this is
a no-op, otherwise resume through `async_request_resume`. -/
def async_req_resume (s : AsyncState) (u : Nat) (err : Int) : AsyncState × List ResumeEvent :=
  match uvGet s.uvdata u with
  | none => (s, [])
  | some rid => async_request_resume s rid u err

/-- The suspension half of `asyncx_await` under the root handler:
`async_request_alloc` followed by `_async_req_await` capturing the calling
continuation `k` (handler-local value `localv`). -/
def beginAwait (s : AsyncState) (scope : ScopePtr) (u : Nat) (k : Nat) (localv : Int) :
    AsyncState × Nat :=
  let p := async_request_alloc s scope u
  ((_async_req_await (some k) localv p.1 p.2).1, p.2)

/-- A client-visible step under one root async handler: begin an await on libuv
request `u` (continuation handle `k`, ambient scope `scope`), or deliver a
completion callback for `u` with status `err`. -/
inductive AsyncOp where
  | begin (u : Nat) (k : Nat) (scope : ScopePtr) : AsyncOp
  | complete (u : Nat) (err : Int) : AsyncOp
deriving DecidableEq, Repr

/-- Run one step; also report the ids of requests begun and of requests
actually resumed by this step. -/
def stepOp (localv : Int) (s : AsyncState) : AsyncOp → AsyncState × List Nat × List Nat
  | .begin u k scope =>
    let p := beginAwait s scope u k localv
    (p.1, [p.2], [])
  | .complete u err =>
    let p := async_req_resume s u err
    (p.1, [], p.2.map (·.rid))

/-- Run a sequence of steps, collecting all begun and all completed request ids. -/
def runTrace (localv : Int) (s : AsyncState) : List AsyncOp → AsyncState × List Nat × List Nat
  | [] => (s, [], [])
  | op :: tr =>
    let p := stepOp localv s op
    let q := runTrace localv p.1 tr
    (q.1, p.2.1 ++ q.2.1, p.2.2 ++ q.2.2)

/-- The state of a freshly installed root async handler (`async_handler` before
running the body): empty registry, no live requests. -/
def initState (loop : Int) : AsyncState :=
  { alocal := { loop := loop, requests := { zeroRequest with next := .null, prev := .null } },
    heap := [], nextId := 0, uvdata := [] }

/-- The ids of the live (begun, not yet completed) requests, most recently
allocated first. -/
def regList (s : AsyncState) : List Nat := s.heap.map (·.1)

/-- Does the chain starting at pointer `p`, whose predecessor is `pv`, spell
exactly the ids `l`, with every node's `prev` pointing back at its predecessor
and the last node's `next` being `NULL`? -/
def chainIs (h : Heap) : List Nat → ReqPtr → ReqPtr → Bool
  | [], p, _ => decide (p = ReqPtr.null)
  | i :: l, p, pv =>
    decide (p = ReqPtr.node i) &&
      match heapGet h i with
      | none => false
      | some r => decide (r.prev = pv) && chainIs h l r.next (ReqPtr.node i)

/-- Registry well-formedness: the sentinel's `next` chain spells exactly the
live requests (newest first) with consistent neighbour pointers. -/
def registryOk (s : AsyncState) : Bool :=
  chainIs s.heap (regList s) s.alocal.requests.next ReqPtr.sentinel

/-- Heap effect of a write through an `async_request_t*`: a heap node is
modified, a write through `NULL` or through the sentinel leaves the heap
unchanged (the sentinel lives in the handler-local state). -/
def modifyAt (h : Heap) (p : ReqPtr) (f : async_request_t → async_request_t) : Heap :=
  match p with
  | .node j => heapModify h j f
  | _ => h

/-- The heap writes of the unlink step of `async_request_resume`, for a request
`rid` whose recorded neighbours are `rprev` and `rnext`. -/
def unlinkWrites (h : Heap) (rid : Nat) (rprev rnext : ReqPtr) : Heap :=
  heapModify
    (modifyAt (modifyAt h rprev fun q => { q with next := rnext })
      rnext fun q => { q with prev := rprev })
    rid fun q => { q with next := .null, prev := .null }

/-- The `next`/`prev` fields of node `i`, the only fields `chainIs` inspects. -/
def npAt (h : Heap) (i : Nat) : Option (ReqPtr × ReqPtr) :=
  (heapGet h i).map fun r => (r.next, r.prev)

/-- The invariant maintained by the root handler: well-formed registry chain,
ids strictly decreasing (reverse insertion order), ids below the allocation
counter, and every non-`NULL` `uvreq->data` pointing at a live request whose
back-reference points back at `uvreq`. -/
def InvP (s : AsyncState) : Prop :=
  registryOk s = true ∧
  List.Pairwise (· > ·) (regList s) ∧
  (∀ i ∈ regList s, i < s.nextId) ∧
  (∀ u rid, uvGet s.uvdata u = some rid →
    ∃ r, heapGet s.heap rid = some r ∧ r.uvreq = some u)

/-- The value an operation function delivers to the computation it answers:
the third argument of `lh_tail_resume`, or the returned value for an exiting
operation. -/
def outValue : OpOutcome → Int
  | .tailResume _ v => v
  | .exit v => v

/-! ## Basic lemmas about the heap and the `data` map -/

theorem heapGet_modify (h : Heap) (i j : Nat) (f : async_request_t → async_request_t) :
    heapGet (heapModify h i f) j = if i = j then (heapGet h j).map f else heapGet h j := by
  induction h with
  | nil => by_cases hij : i = j <;> simp [heapGet, heapModify, hij]
  | cons a t ih =>
    obtain ⟨b, r⟩ := a
    by_cases hbi : b = i
    · subst hbi
      by_cases hbj : b = j
      · subst hbj
        simp [heapModify, heapGet]
      · simp [heapModify, heapGet, hbj] at ih ⊢
        exact ih
    · by_cases hbj : b = j
      · subst hbj
        simp [heapModify, heapGet, hbi, Ne.symm hbi]
      · simp [heapModify, heapGet, hbi, hbj] at ih ⊢
        exact ih

theorem heapGet_free (h : Heap) (i j : Nat) :
    heapGet (heapFree h i) j = if i = j then none else heapGet h j := by
  induction h with
  | nil => by_cases hij : i = j <;> simp [heapGet, heapFree, hij]
  | cons a t ih =>
    obtain ⟨b, r⟩ := a
    by_cases hbi : b = i
    · subst hbi
      by_cases hbj : b = j
      · subst hbj
        simp [heapFree, heapGet] at ih ⊢
        exact ih
      · simp [heapFree, heapGet, hbj] at ih ⊢
        exact ih
    · by_cases hbj : b = j
      · subst hbj
        simp [heapFree, heapGet, hbi, Ne.symm hbi]
      · simp [heapFree, heapGet, hbi, hbj] at ih ⊢
        exact ih

theorem heapModify_keys (h : Heap) (i : Nat) (f : async_request_t → async_request_t) :
    (heapModify h i f).map (·.1) = h.map (·.1) := by
  induction h with
  | nil => rfl
  | cons a t ih =>
    obtain ⟨b, r⟩ := a
    by_cases hbi : b = i <;> simp [heapModify, hbi, ih]

theorem heapFree_keys (h : Heap) (i : Nat) :
    (heapFree h i).map (·.1) = (h.map (·.1)).filter (fun j => decide (j ≠ i)) := by
  induction h with
  | nil => rfl
  | cons a t ih =>
    obtain ⟨b, r⟩ := a
    by_cases hbi : b = i <;> simp [heapFree, hbi, ih]

theorem uvGet_uvSet_self (m : List (Nat × Option Nat)) (u : Nat) (d : Option Nat) :
    uvGet (uvSet m u d) u = d := by
  simp [uvGet, uvSet]

theorem uvGet_uvSet_ne (m : List (Nat × Option Nat)) (u v : Nat) (d : Option Nat)
    (huv : v ≠ u) : uvGet (uvSet m u d) v = uvGet m v := by
  simp [uvGet, uvSet, Ne.symm huv]

/-! ## Components untouched by `writeReq` -/

theorem writeReq_uvdata (s : AsyncState) (p : ReqPtr) (f : async_request_t → async_request_t) :
    (writeReq s p f).uvdata = s.uvdata := by
  cases p <;> rfl

theorem writeReq_nextId (s : AsyncState) (p : ReqPtr) (f : async_request_t → async_request_t) :
    (writeReq s p f).nextId = s.nextId := by
  cases p <;> rfl

theorem writeReq_loop (s : AsyncState) (p : ReqPtr) (f : async_request_t → async_request_t) :
    (writeReq s p f).alocal.loop = s.alocal.loop := by
  cases p <;> rfl

theorem writeReq_node_alocal (s : AsyncState) (i : Nat) (f : async_request_t → async_request_t) :
    (writeReq s (.node i) f).alocal = s.alocal := rfl

theorem writeReq_node_heap (s : AsyncState) (i : Nat) (f : async_request_t → async_request_t) :
    (writeReq s (.node i) f).heap = heapModify s.heap i f := rfl

theorem writeReq_sentinel_heap (s : AsyncState) (f : async_request_t → async_request_t) :
    (writeReq s .sentinel f).heap = s.heap := rfl

theorem writeReq_null (s : AsyncState) (f : async_request_t → async_request_t) :
    writeReq s .null f = s := rfl

theorem writeReq_keys (s : AsyncState) (p : ReqPtr) (f : async_request_t → async_request_t) :
    (writeReq s p f).heap.map (·.1) = s.heap.map (·.1) := by
  cases p <;> simp [writeReq, heapModify_keys]

/-! ## `chainIs` only looks at the `next`/`prev` fields of the listed nodes -/

theorem chainIs_congr (h h' : Heap) (l : List Nat)
    (hnp : ∀ i ∈ l, npAt h' i = npAt h i) :
    ∀ p pv, chainIs h' l p pv = chainIs h l p pv := by
  induction l with
  | nil => intro p pv; rfl
  | cons i l ih =>
    intro p pv
    have hi := hnp i (by simp)
    unfold npAt at hi
    cases hh : heapGet h i with
    | none =>
      rw [hh] at hi
      simp only [Option.map_none'] at hi
      have hh' : heapGet h' i = none := Option.map_eq_none'.mp hi
      simp [chainIs, hh, hh']
    | some r =>
      rw [hh] at hi
      cases hh' : heapGet h' i with
      | none => rw [hh'] at hi; simp at hi
      | some r' =>
        rw [hh'] at hi
        simp only [Option.map_some'] at hi
        have hpair := Option.some.inj hi
        have hn : r'.next = r.next := congrArg Prod.fst hpair
        have hp : r'.prev = r.prev := congrArg Prod.snd hpair
        simp only [chainIs, hh, hh', hn, hp]
        rw [ih (fun j hj => hnp j (List.mem_cons_of_mem _ hj))]

/-! ## `modifyAt` and `unlinkWrites` -/

theorem modifyAt_node (h : Heap) (j : Nat) (f : async_request_t → async_request_t) :
    modifyAt h (ReqPtr.node j) f = heapModify h j f := rfl

theorem chainIs_cons_intro (h : Heap) (i : Nat) (l : List Nat) (p pv : ReqPtr)
    (r : async_request_t) (hg : heapGet h i = some r) (hp : p = ReqPtr.node i)
    (hprev : r.prev = pv) (hrest : chainIs h l r.next (ReqPtr.node i) = true) :
    chainIs h (i :: l) p pv = true := by
  simp only [chainIs, hg, Bool.and_eq_true, decide_eq_true_eq]
  exact ⟨hp, hprev, hrest⟩

theorem modifyAt_get_other (h : Heap) (p : ReqPtr) (f : async_request_t → async_request_t)
    (x : Nat) (hx : p ≠ ReqPtr.node x) :
    heapGet (modifyAt h p f) x = heapGet h x := by
  cases p with
  | null => rfl
  | sentinel => rfl
  | node j =>
    have hj : ¬(j = x) := fun hh => hx (by rw [hh])
    simp [modifyAt, heapGet_modify, hj]

theorem modifyAt_keys (h : Heap) (p : ReqPtr) (f : async_request_t → async_request_t) :
    (modifyAt h p f).map (·.1) = h.map (·.1) := by
  cases p <;> simp [modifyAt, heapModify_keys]

theorem modifyAt_uvreq (h : Heap) (p : ReqPtr) (f : async_request_t → async_request_t)
    (x : Nat) (hf : ∀ q, (f q).uvreq = q.uvreq) :
    (heapGet (modifyAt h p f) x).map (·.uvreq) = (heapGet h x).map (·.uvreq) := by
  cases p with
  | null => rfl
  | sentinel => rfl
  | node j =>
    by_cases hj : j = x
    · subst hj
      simp only [modifyAt, heapGet_modify, if_pos rfl]
      cases heapGet h j <;> simp [hf]
    · simp [modifyAt, heapGet_modify, hj]

theorem unlinkWrites_get_other (h : Heap) (rid : Nat) (rp rn : ReqPtr) (x : Nat)
    (hx1 : x ≠ rid) (hx2 : rp ≠ ReqPtr.node x) (hx3 : rn ≠ ReqPtr.node x) :
    heapGet (unlinkWrites h rid rp rn) x = heapGet h x := by
  unfold unlinkWrites
  rw [heapGet_modify, if_neg (fun hh => hx1 hh.symm), modifyAt_get_other _ _ _ _ hx3,
    modifyAt_get_other _ _ _ _ hx2]

theorem unlinkWrites_keys (h : Heap) (rid : Nat) (rp rn : ReqPtr) :
    (unlinkWrites h rid rp rn).map (·.1) = h.map (·.1) := by
  unfold unlinkWrites
  rw [heapModify_keys, modifyAt_keys, modifyAt_keys]

theorem unlinkWrites_uvreq (h : Heap) (rid : Nat) (rp rn : ReqPtr) (x : Nat) :
    (heapGet (unlinkWrites h rid rp rn) x).map (·.uvreq)
      = (heapGet h x).map (·.uvreq) := by
  have h1 := modifyAt_uvreq (modifyAt h rp fun q => { q with next := rn }) rn
    (fun q => { q with prev := rp }) x (fun q => rfl)
  have h2 := modifyAt_uvreq h rp (fun q => { q with next := rn }) x (fun q => rfl)
  unfold unlinkWrites
  rw [heapGet_modify]
  by_cases hx : rid = x
  · rw [if_pos hx, Option.map_map]
    have hcomp : ((fun q : async_request_t => q.uvreq) ∘
        fun q => { q with next := ReqPtr.null, prev := ReqPtr.null }) =
        fun q : async_request_t => q.uvreq := rfl
    rw [hcomp, h1, h2]
  · rw [if_neg hx, h1, h2]

theorem heapGet_mem (h : Heap) (x : Nat) (r : async_request_t) (hg : heapGet h x = some r) :
    x ∈ h.map (·.1) := by
  induction h with
  | nil => simp [heapGet] at hg
  | cons a t ih =>
    obtain ⟨b, rb⟩ := a
    by_cases hbx : b = x
    · subst hbx; simp
    · simp only [heapGet, if_neg hbx] at hg
      simp [ih hg]

theorem filter_middle (l1 : List Nat) (rid : Nat) (l2 : List Nat)
    (hnd : (l1 ++ rid :: l2).Nodup) :
    (l1 ++ rid :: l2).filter (fun x => decide (x ≠ rid)) = l1 ++ l2 := by
  rw [List.nodup_append] at hnd
  have h1 : ∀ x ∈ l1, x ≠ rid := by
    intro x hx heq
    subst heq
    exact hnd.2.2 hx (List.mem_cons_self _ _)
  have h2 : ∀ x ∈ l2, x ≠ rid := by
    intro x hx heq
    subst heq
    exact (List.nodup_cons.mp hnd.2.1).1 hx
  rw [List.filter_append]
  rw [List.filter_eq_self.mpr (by intro a ha; simpa using h1 a ha)]
  simp only [List.filter_cons, decide_eq_true_eq]
  rw [if_neg (by simp)]
  rw [List.filter_eq_self.mpr (by intro a ha; simpa using h2 a ha)]

/-! ## Shape of a chain element and correctness of the unlink step -/

theorem chain_shape : ∀ (l1 : List Nat) (rid : Nat) (l2 : List Nat) (h : Heap) (p pv : ReqPtr)
    (r : async_request_t),
    chainIs h (l1 ++ rid :: l2) p pv = true →
    heapGet h rid = some r →
    ((l1 = [] ∧ p = ReqPtr.node rid ∧ r.prev = pv) ∨
      (∃ a, a ∈ l1 ∧ r.prev = ReqPtr.node a)) ∧
    (r.next = ReqPtr.null ∨ ∃ b, b ∈ l2 ∧ r.next = ReqPtr.node b) ∧
    chainIs h l2 r.next (ReqPtr.node rid) = true := by
  intro l1
  induction l1 with
  | nil =>
    intro rid l2 h p pv r hc hg
    simp only [List.nil_append, chainIs, hg, Bool.and_eq_true, decide_eq_true_eq] at hc
    obtain ⟨hp, hprev, hchain⟩ := hc
    refine ⟨Or.inl ⟨rfl, hp, hprev⟩, ?_, hchain⟩
    cases hl2 : l2 with
    | nil =>
      subst hl2
      simp only [chainIs, decide_eq_true_eq] at hchain
      exact Or.inl hchain
    | cons b l2' =>
      subst hl2
      simp only [chainIs, Bool.and_eq_true, decide_eq_true_eq] at hchain
      exact Or.inr ⟨b, List.mem_cons_self _ _, hchain.1⟩
  | cons a l1' ih =>
    intro rid l2 h p pv r hc hg
    simp only [List.cons_append, chainIs] at hc
    cases hga : heapGet h a with
    | none => rw [hga] at hc; simp at hc
    | some ra =>
      rw [hga] at hc
      simp only [Bool.and_eq_true, decide_eq_true_eq] at hc
      obtain ⟨hpa, haprev, hachain⟩ := hc
      have hsub := ih rid l2 h ra.next (ReqPtr.node a) r hachain hg
      refine ⟨?_, hsub.2.1, hsub.2.2⟩
      rcases hsub.1 with ⟨_, _, hpr⟩ | ⟨a2, ha2, hpr⟩
      · exact Or.inr ⟨a, List.mem_cons_self _ _, hpr⟩
      · exact Or.inr ⟨a2, List.mem_cons_of_mem _ ha2, hpr⟩

theorem chain_unlink : ∀ (l1 : List Nat) (rid : Nat) (l2 : List Nat) (h : Heap) (p pv : ReqPtr)
    (r : async_request_t),
    chainIs h (l1 ++ rid :: l2) p pv = true →
    (l1 ++ rid :: l2).Nodup →
    (∀ a, pv = ReqPtr.node a → a ∉ l1 ++ rid :: l2) →
    heapGet h rid = some r →
    chainIs (unlinkWrites h rid r.prev r.next) (l1 ++ l2)
      (if l1 = [] then r.next else p) pv = true := by
  intro l1
  induction l1 with
  | nil =>
    intro rid l2 h p pv r hc hnd hpv hg
    simp only [List.nil_append] at hc hnd hpv ⊢
    simp only [if_true]
    simp only [chainIs, hg, Bool.and_eq_true, decide_eq_true_eq] at hc
    obtain ⟨hp, hprev, hchain⟩ := hc
    have hridl2 : rid ∉ l2 := (List.nodup_cons.mp hnd).1
    have hndl2 : l2.Nodup := (List.nodup_cons.mp hnd).2
    cases hl2 : l2 with
    | nil =>
      subst hl2
      simpa only [chainIs] using hchain
    | cons b l2' =>
      subst hl2
      simp only [chainIs, Bool.and_eq_true, decide_eq_true_eq] at hchain
      obtain ⟨hnext, hbrest⟩ := hchain
      cases hgb : heapGet h b with
      | none => rw [hgb] at hbrest; simp at hbrest
      | some rb =>
        rw [hgb] at hbrest
        simp only [Bool.and_eq_true, decide_eq_true_eq] at hbrest
        obtain ⟨hbprev, hbchain⟩ := hbrest
        have hbrid : b ≠ rid := by
          intro hh
          exact hridl2 (hh ▸ List.mem_cons_self b l2')
        have hrpb : r.prev ≠ ReqPtr.node b := by
          rw [hprev]
          intro hh
          exact hpv b hh (by simp)
        have hgb' : heapGet (unlinkWrites h rid r.prev r.next) b
            = some { rb with prev := r.prev } := by
          unfold unlinkWrites
          rw [heapGet_modify, if_neg (fun hh => hbrid hh.symm), hnext, modifyAt_node,
            heapGet_modify, if_pos rfl, modifyAt_get_other _ _ _ _ hrpb, hgb]
          rfl
        apply chainIs_cons_intro _ _ _ _ _ _ hgb' hnext hprev
        show chainIs _ l2' rb.next (ReqPtr.node b) = true
        rw [chainIs_congr h (unlinkWrites h rid r.prev r.next) l2' ?hnp rb.next (ReqPtr.node b)]
        · exact hbchain
        case hnp =>
          intro j hj
          unfold npAt
          rw [unlinkWrites_get_other]
          · intro hh
            subst hh
            exact hridl2 (List.mem_cons_of_mem _ hj)
          · rw [hprev]
            intro hh
            exact hpv j hh (by simp [hj])
          · rw [hnext]
            intro hh
            have hbj : b = j := by injection hh
            subst hbj
            exact (List.nodup_cons.mp hndl2).1 hj
  | cons a l1' ih =>
    intro rid l2 h p pv r hc hnd hpv hg
    simp only [List.cons_append, chainIs] at hc
    cases hga : heapGet h a with
    | none => rw [hga] at hc; simp at hc
    | some ra =>
      rw [hga] at hc
      simp only [Bool.and_eq_true, decide_eq_true_eq] at hc
      obtain ⟨hpa, haprev, hachain⟩ := hc
      have hnd' : (l1' ++ rid :: l2).Nodup := (List.nodup_cons.mp hnd).2
      have hanotin : a ∉ l1' ++ rid :: l2 := (List.nodup_cons.mp hnd).1
      have hpv' : ∀ x, ReqPtr.node a = ReqPtr.node x → x ∉ l1' ++ rid :: l2 := by
        intro x hx
        have hax : a = x := by injection hx
        subst hax
        exact hanotin
      have hihres := ih rid l2 h ra.next (ReqPtr.node a) r hachain hnd' hpv' hg
      have hshape := chain_shape l1' rid l2 h ra.next (ReqPtr.node a) r hachain hg
      have hard : rid ≠ a := by
        intro hh
        subst hh
        exact hanotin (List.mem_append_right _ (List.mem_cons_self _ _))
      have hrna : r.next ≠ ReqPtr.node a := by
        rcases hshape.2.1 with hnull | ⟨b, hb, hbe⟩
        · rw [hnull]; intro hh; cases hh
        · rw [hbe]
          intro hh
          have hba : b = a := by injection hh
          subst hba
          exact hanotin (List.mem_append_right _ (List.mem_cons_of_mem _ hb))
      simp only [List.cons_append]
      rw [if_neg (by simp)]
      cases hl1' : l1' with
      | nil =>
        subst hl1'
        simp only [List.nil_append, chainIs, hg, Bool.and_eq_true, decide_eq_true_eq] at hachain
        obtain ⟨hra_next, hrprev, _⟩ := hachain
        have hga' : heapGet (unlinkWrites h rid r.prev r.next) a
            = some { ra with next := r.next } := by
          unfold unlinkWrites
          rw [heapGet_modify, if_neg hard, modifyAt_get_other _ _ _ _ hrna, hrprev,
            modifyAt_node, heapGet_modify, if_pos rfl, hga]
          rfl
        apply chainIs_cons_intro _ _ _ _ _ _ hga' hpa haprev
        show chainIs _ ([] ++ l2) r.next (ReqPtr.node a) = true
        simpa using hihres
      | cons a2 l1'' =>
        subst hl1'
        have hga' : heapGet (unlinkWrites h rid r.prev r.next) a = some ra := by
          rw [← hga]
          apply unlinkWrites_get_other
          · exact fun hh => hard hh.symm
          · rcases hshape.1 with ⟨hl1e, _, _⟩ | ⟨a3, ha3, hpe⟩
            · exact absurd hl1e (by simp)
            · rw [hpe]
              intro hh
              have ha3a : a3 = a := by injection hh
              subst ha3a
              exact hanotin (List.mem_append_left _ ha3)
          · exact hrna
        apply chainIs_cons_intro _ _ _ _ _ _ hga' hpa haprev
        show chainIs _ ((a2 :: l1'') ++ l2) ra.next (ReqPtr.node a) = true
        simpa using hihres

/-! ## State components preserved by the registry insertion and by resumption -/

theorem register_upd_loop (s : AsyncState) (rid : Nat) :
    (_async_req_register_upd s rid).alocal.loop = s.alocal.loop := by
  unfold _async_req_register_upd
  by_cases hnx : s.alocal.requests.next ≠ ReqPtr.null <;> simp [hnx, writeReq_loop]

theorem register_upd_uvdata (s : AsyncState) (rid : Nat) :
    (_async_req_register_upd s rid).uvdata = s.uvdata := by
  unfold _async_req_register_upd
  by_cases hnx : s.alocal.requests.next ≠ ReqPtr.null <;> simp [hnx, writeReq_uvdata]

theorem register_upd_nextId (s : AsyncState) (rid : Nat) :
    (_async_req_register_upd s rid).nextId = s.nextId := by
  unfold _async_req_register_upd
  by_cases hnx : s.alocal.requests.next ≠ ReqPtr.null <;> simp [hnx, writeReq_nextId]

theorem register_upd_keys (s : AsyncState) (rid : Nat) :
    (_async_req_register_upd s rid).heap.map (·.1) = s.heap.map (·.1) := by
  unfold _async_req_register_upd
  by_cases hnx : s.alocal.requests.next ≠ ReqPtr.null <;> simp [hnx, writeReq_keys]

theorem async_request_resume_loop (s : AsyncState) (rid u : Nat) (err : Int) :
    (async_request_resume s rid u err).1.alocal.loop = s.alocal.loop := by
  unfold async_request_resume
  cases hg : heapGet s.heap rid with
  | none => rfl
  | some req =>
    by_cases hu : req.uvreq ≠ none
    · by_cases hp : req.prev ≠ ReqPtr.null
      · by_cases hn : req.next ≠ ReqPtr.null
        · simp only [if_pos hu, if_pos hp, if_pos hn]
          split <;> simp [writeReq_loop]
        · simp only [if_pos hu, if_pos hp, if_neg hn]
          split <;> simp [writeReq_loop]
      · simp only [if_pos hu, if_neg hp]
        split <;> simp [writeReq_loop]
    · simp only [if_neg hu]

theorem async_req_resume_loop (s : AsyncState) (u : Nat) (err : Int) :
    (async_req_resume s u err).1.alocal.loop = s.alocal.loop := by
  unfold async_req_resume
  split
  · rfl
  · exact async_request_resume_loop ..

theorem stepOp_loop (lv : Int) (s : AsyncState) (op : AsyncOp) :
    (stepOp lv s op).1.alocal.loop = s.alocal.loop := by
  cases op with
  | begin u k scope =>
    simp [stepOp, beginAwait, _async_req_await, writeReq_loop, register_upd_loop,
      async_request_alloc]
  | complete u err =>
    simp [stepOp, async_req_resume_loop]

theorem runTrace_loop (lv : Int) :
    ∀ (tr : List AsyncOp) (s : AsyncState), (runTrace lv s tr).1.alocal.loop = s.alocal.loop := by
  intro tr
  induction tr with
  | nil => intro s; rfl
  | cons op tr ih =>
    intro s
    simp only [runTrace]
    rw [ih, stepOp_loop]

/-! ## Observable effects of `beginAwait` and `async_request_resume` -/

theorem beginAwait_obs (s : AsyncState) (scope : ScopePtr) (u k : Nat) (lv : Int) :
    (beginAwait s scope u k lv).2 = s.nextId ∧
    (beginAwait s scope u k lv).1.uvdata = uvSet s.uvdata u (some s.nextId) ∧
    heapGet (beginAwait s scope u k lv).1.heap s.nextId =
      some { next := s.alocal.requests.next, prev := ReqPtr.sentinel, resume := some k,
             localv := lv, scope := scope, uvreq := some u,
             resumefun := some Strategy.default } := by
  refine ⟨rfl, ?_, ?_⟩
  · cases hnx : s.alocal.requests.next <;>
      simp [beginAwait, async_request_alloc, _async_req_await, _async_req_register_upd,
        writeReq, uvSet, hnx]
  · cases hnx : s.alocal.requests.next with
    | null =>
      simp [beginAwait, async_request_alloc, _async_req_await, _async_req_register_upd,
        writeReq, hnx, heapGet_modify, heapGet, zeroRequest]
    | sentinel =>
      simp [beginAwait, async_request_alloc, _async_req_await, _async_req_register_upd,
        writeReq, hnx, heapGet_modify, heapGet, zeroRequest]
    | node j =>
      by_cases hj : j = s.nextId <;>
        simp [beginAwait, async_request_alloc, _async_req_await, _async_req_register_upd,
          writeReq, hnx, heapGet_modify, heapGet, zeroRequest, hj]

theorem beginAwait_keys (s : AsyncState) (scope : ScopePtr) (u k : Nat) (lv : Int) :
    regList (beginAwait s scope u k lv).1 = s.nextId :: regList s := by
  simp only [regList, beginAwait, _async_req_await, async_request_alloc]
  rw [writeReq_keys, register_upd_keys, writeReq_keys]
  rfl

theorem beginAwait_nextId (s : AsyncState) (scope : ScopePtr) (u k : Nat) (lv : Int) :
    (beginAwait s scope u k lv).1.nextId = s.nextId + 1 := by
  simp only [beginAwait, _async_req_await, async_request_alloc]
  rw [writeReq_nextId, register_upd_nextId, writeReq_nextId]

theorem beginAwait_alocal (s : AsyncState) (scope : ScopePtr) (u k : Nat) (lv : Int)
    (hnx : s.alocal.requests.next ≠ ReqPtr.sentinel) :
    (beginAwait s scope u k lv).1.alocal =
      { s.alocal with requests :=
          { s.alocal.requests with next := ReqPtr.node s.nextId } } := by
  cases hnxv : s.alocal.requests.next with
  | sentinel => exact absurd hnxv hnx
  | null =>
    simp [beginAwait, async_request_alloc, _async_req_await, _async_req_register_upd,
      writeReq, hnxv]
  | node j =>
    simp [beginAwait, async_request_alloc, _async_req_await, _async_req_register_upd,
      writeReq, hnxv]

theorem beginAwait_get_other (s : AsyncState) (scope : ScopePtr) (u k : Nat) (lv : Int)
    (x : Nat) (hx : x ≠ s.nextId) :
    heapGet (beginAwait s scope u k lv).1.heap x =
      if s.alocal.requests.next = ReqPtr.node x then
        (heapGet s.heap x).map (fun q => { q with prev := ReqPtr.node s.nextId })
      else heapGet s.heap x := by
  have hx' : ¬(s.nextId = x) := fun hh => hx hh.symm
  cases hnx : s.alocal.requests.next with
  | null =>
    simp [beginAwait, async_request_alloc, _async_req_await, _async_req_register_upd,
      writeReq, hnx, heapGet_modify, heapGet, hx']
  | sentinel =>
    simp [beginAwait, async_request_alloc, _async_req_await, _async_req_register_upd,
      writeReq, hnx, heapGet_modify, heapGet, hx']
  | node j =>
    by_cases hjx : j = x
    · subst hjx
      simp [beginAwait, async_request_alloc, _async_req_await, _async_req_register_upd,
        writeReq, hnx, heapGet_modify, heapGet, hx']
    · simp [beginAwait, async_request_alloc, _async_req_await, _async_req_register_upd,
        writeReq, hnx, heapGet_modify, heapGet, hx', hjx]

theorem begin_preserves (s : AsyncState) (scope : ScopePtr) (u k : Nat) (lv : Int)
    (hInv : InvP s) :
    InvP (beginAwait s scope u k lv).1 ∧
    regList (beginAwait s scope u k lv).1 = s.nextId :: regList s ∧
    (beginAwait s scope u k lv).1.nextId = s.nextId + 1 := by
  obtain ⟨hchain, hpw, hbd, huv⟩ := hInv
  have hkeys := beginAwait_keys s scope u k lv
  have hnid := beginAwait_nextId s scope u k lv
  have huvd := (beginAwait_obs s scope u k lv).2.1
  have hrid := (beginAwait_obs s scope u k lv).2.2
  unfold registryOk at hchain
  have hndp : (regList s).Nodup := hpw.imp (fun hab => Nat.ne_of_gt hab)
  have hstart : (regList s = [] ∧ s.alocal.requests.next = ReqPtr.null) ∨
      (∃ j l2, regList s = j :: l2 ∧ s.alocal.requests.next = ReqPtr.node j) := by
    cases hrl : regList s with
    | nil =>
      left
      rw [hrl] at hchain
      simpa [chainIs] using hchain
    | cons j l2 =>
      right
      rw [hrl] at hchain
      simp only [chainIs, Bool.and_eq_true, decide_eq_true_eq] at hchain
      exact ⟨j, l2, rfl, hchain.1⟩
  have hnsent : s.alocal.requests.next ≠ ReqPtr.sentinel := by
    rcases hstart with ⟨_, h0⟩ | ⟨j, l2, _, h0⟩ <;> simp [h0]
  have halocal := beginAwait_alocal s scope u k lv hnsent
  have hanext : (beginAwait s scope u k lv).1.alocal.requests.next = ReqPtr.node s.nextId := by
    rw [halocal]
  refine ⟨⟨?_, ?_, ?_, ?_⟩, hkeys, hnid⟩
  · -- registry chain
    unfold registryOk
    rw [hkeys, hanext]
    apply chainIs_cons_intro _ _ _ _ _ _ hrid rfl rfl
    show chainIs _ (regList s) s.alocal.requests.next (ReqPtr.node s.nextId) = true
    rcases hstart with ⟨hrl, h0⟩ | ⟨j, l2, hrl, h0⟩
    · rw [hrl, h0]
      rfl
    · rw [hrl] at hchain ⊢
      simp only [chainIs, Bool.and_eq_true, decide_eq_true_eq] at hchain
      obtain ⟨hp0, hrest⟩ := hchain
      cases hgj : heapGet s.heap j with
      | none => rw [hgj] at hrest; simp at hrest
      | some rj =>
        rw [hgj] at hrest
        simp only [Bool.and_eq_true, decide_eq_true_eq] at hrest
        obtain ⟨hjprev, hjchain⟩ := hrest
        have hjlt : j < s.nextId := hbd j (by rw [hrl]; exact List.mem_cons_self _ _)
        have hjne : j ≠ s.nextId := Nat.ne_of_lt hjlt
        have hgj' : heapGet (beginAwait s scope u k lv).1.heap j
            = some { rj with prev := ReqPtr.node s.nextId } := by
          rw [beginAwait_get_other s scope u k lv j hjne, if_pos h0, hgj]
          rfl
        apply chainIs_cons_intro _ _ _ _ _ _ hgj' h0 rfl
        show chainIs _ l2 rj.next (ReqPtr.node j) = true
        rw [chainIs_congr s.heap _ l2 ?hnp rj.next (ReqPtr.node j)]
        · exact hjchain
        case hnp =>
          intro x hxl
          have hxlt : x < s.nextId := hbd x (by rw [hrl]; exact List.mem_cons_of_mem _ hxl)
          have hxne : x ≠ s.nextId := Nat.ne_of_lt hxlt
          have hjx : ¬(s.alocal.requests.next = ReqPtr.node x) := by
            rw [h0]
            intro hh
            have : j = x := by injection hh
            subst this
            exact (List.nodup_cons.mp (by rw [hrl] at hndp; exact hndp)).1 hxl
          unfold npAt
          rw [beginAwait_get_other s scope u k lv x hxne, if_neg hjx]
  · -- reverse-insertion order
    rw [hkeys]
    exact List.pairwise_cons.mpr ⟨fun x hx => hbd x hx, hpw⟩
  · -- ids bounded by the allocation counter
    rw [hkeys, hnid]
    intro i hi
    rcases List.mem_cons.mp hi with hi | hi
    · omega
    · have := hbd i hi
      omega
  · -- uvreq back-references
    intro u' rid' huv'
    rw [huvd] at huv'
    by_cases hu' : u' = u
    · subst hu'
      rw [uvGet_uvSet_self] at huv'
      have hr' : rid' = s.nextId := by
        injection huv' with hh
        exact hh.symm
      subst hr'
      exact ⟨_, hrid, rfl⟩
    · rw [uvGet_uvSet_ne _ _ _ _ hu'] at huv'
      obtain ⟨r', hgr', hur'⟩ := huv u' rid' huv'
      have hne : rid' ≠ s.nextId := by
        have := hbd rid' (heapGet_mem _ _ _ hgr')
        omega
      have hget := beginAwait_get_other s scope u k lv rid' hne
      by_cases hcond : s.alocal.requests.next = ReqPtr.node rid'
      · rw [if_pos hcond, hgr'] at hget
        exact ⟨_, hget, hur'⟩
      · rw [if_neg hcond, hgr'] at hget
        exact ⟨_, hget, hur'⟩

theorem async_request_resume_obs (s : AsyncState) (rid u : Nat) (err : Int)
    (req : async_request_t)
    (hg : heapGet s.heap rid = some req)
    (hu : req.uvreq ≠ none)
    (hp : req.prev ≠ ReqPtr.null) :
    (async_request_resume s rid u err).2 =
      [{ rid := rid, resumefun := req.resumefun, resume := req.resume,
         localv := req.localv, uvreq := u, err := err }] ∧
    (async_request_resume s rid u err).1.uvdata = uvSet s.uvdata u none ∧
    heapGet (async_request_resume s rid u err).1.heap rid = none ∧
    (async_request_resume s rid u err).1.nextId = s.nextId := by
  simp only [async_request_resume, hg, if_pos hu, if_pos hp]
  cases hpr : req.prev with
  | null => exact absurd hpr hp
  | sentinel =>
    cases hnx : req.next with
    | null =>
      simp [writeReq, hg, heapGet_modify, heapGet_free]
    | sentinel =>
      simp [writeReq, hg, heapGet_modify, heapGet_free]
    | node j2 =>
      by_cases hj2 : j2 = rid <;>
        simp [writeReq, hg, heapGet_modify, heapGet_free, hj2]
  | node j =>
    by_cases hj : j = rid
    · cases hnx : req.next with
      | null =>
        simp [writeReq, hg, heapGet_modify, heapGet_free, hj]
      | sentinel =>
        simp [writeReq, hg, heapGet_modify, heapGet_free, hj]
      | node j2 =>
        by_cases hj2 : j2 = rid <;>
          simp [writeReq, hg, heapGet_modify, heapGet_free, hj, hj2]
    · cases hnx : req.next with
      | null =>
        simp [writeReq, hg, heapGet_modify, heapGet_free, hj]
      | sentinel =>
        simp [writeReq, hg, heapGet_modify, heapGet_free, hj]
      | node j2 =>
        by_cases hj2 : j2 = rid <;>
          simp [writeReq, hg, heapGet_modify, heapGet_free, hj, hj2]

theorem async_request_resume_spec (s : AsyncState) (rid u : Nat) (err : Int)
    (req : async_request_t)
    (hg : heapGet s.heap rid = some req)
    (hu : req.uvreq ≠ none)
    (hpshape : req.prev = ReqPtr.sentinel ∨ ∃ a, req.prev = ReqPtr.node a)
    (hnshape : req.next = ReqPtr.null ∨ ∃ b, req.next = ReqPtr.node b) :
    (async_request_resume s rid u err).1.heap
        = heapFree (unlinkWrites (heapModify s.heap rid fun q => { q with uvreq := none })
            rid req.prev req.next) rid ∧
    (async_request_resume s rid u err).1.alocal =
      (if req.prev = ReqPtr.sentinel then
        { s.alocal with requests := { s.alocal.requests with next := req.next } }
      else s.alocal) := by
  have hp : req.prev ≠ ReqPtr.null := by
    rcases hpshape with h | ⟨a, h⟩ <;> simp [h]
  simp only [async_request_resume, hg, if_pos hu, if_pos hp]
  rcases hpshape with hsp | ⟨a, hsp⟩ <;> rcases hnshape with hsn | ⟨b, hsn⟩
  · rw [hsp, hsn]
    simp [writeReq, heapGet_modify, hg, unlinkWrites, modifyAt]
  · rw [hsp, hsn]
    by_cases hb : b = rid <;>
      simp [writeReq, heapGet_modify, hg, unlinkWrites, modifyAt, hb]
  · rw [hsp, hsn]
    by_cases ha : a = rid <;>
      simp [writeReq, heapGet_modify, hg, unlinkWrites, modifyAt, ha]
  · rw [hsp, hsn]
    by_cases ha : a = rid <;> by_cases hb : b = rid <;>
      simp [writeReq, heapGet_modify, hg, unlinkWrites, modifyAt, ha, hb]

theorem complete_preserves (s : AsyncState) (u : Nat) (err : Int) (hInv : InvP s) :
    InvP (async_req_resume s u err).1 ∧
    (async_req_resume s u err = (s, []) ∨
      ∃ rid, (async_req_resume s u err).2.map (·.rid) = [rid] ∧
        regList (async_req_resume s u err).1
          = (regList s).filter (fun x => decide (x ≠ rid)) ∧
        rid ∈ regList s ∧
        (async_req_resume s u err).1.nextId = s.nextId) := by
  obtain ⟨hchain, hpw, hbd, huv⟩ := hInv
  unfold registryOk at hchain
  cases huvg : uvGet s.uvdata u with
  | none =>
    have heq : async_req_resume s u err = (s, []) := by
      simp [async_req_resume, huvg]
    rw [heq]
    exact ⟨⟨hchain, hpw, hbd, huv⟩, Or.inl rfl⟩
  | some rid =>
    obtain ⟨req, hg, hur⟩ := huv u rid huvg
    have hresume_eq : async_req_resume s u err = async_request_resume s rid u err := by
      simp [async_req_resume, huvg]
    rw [hresume_eq]
    have hu : req.uvreq ≠ none := by rw [hur]; simp
    have hmem : rid ∈ regList s := heapGet_mem _ _ _ hg
    obtain ⟨l1, l2, hl⟩ := List.append_of_mem hmem
    have hndp : (regList s).Nodup := hpw.imp (fun hab => Nat.ne_of_gt hab)
    have hnd' : (l1 ++ rid :: l2).Nodup := by rw [← hl]; exact hndp
    have hchain' : chainIs s.heap (l1 ++ rid :: l2) s.alocal.requests.next
        ReqPtr.sentinel = true := by rw [← hl]; exact hchain
    have hshape := chain_shape l1 rid l2 s.heap s.alocal.requests.next ReqPtr.sentinel req
      hchain' hg
    have hpshape : req.prev = ReqPtr.sentinel ∨ ∃ a, req.prev = ReqPtr.node a := by
      rcases hshape.1 with ⟨_, _, hpe⟩ | ⟨a, _, hpe⟩
      · exact Or.inl hpe
      · exact Or.inr ⟨a, hpe⟩
    have hnshape : req.next = ReqPtr.null ∨ ∃ b, req.next = ReqPtr.node b := by
      rcases hshape.2.1 with h | ⟨b, _, hbe⟩
      · exact Or.inl h
      · exact Or.inr ⟨b, hbe⟩
    have hp : req.prev ≠ ReqPtr.null := by
      rcases hpshape with h | ⟨a, h⟩ <;> simp [h]
    have hobs := async_request_resume_obs s rid u err req hg hu hp
    have hspec := async_request_resume_spec s rid u err req hg hu hpshape hnshape
    have hkeys : regList (async_request_resume s rid u err).1
        = (regList s).filter (fun x => decide (x ≠ rid)) := by
      unfold regList
      rw [hspec.1, heapFree_keys, unlinkWrites_keys, heapModify_keys]
    -- the chain survives clearing the back-reference of `rid`
    have hchain2 : chainIs (heapModify s.heap rid fun q => { q with uvreq := none })
        (l1 ++ rid :: l2) s.alocal.requests.next ReqPtr.sentinel = true := by
      rw [chainIs_congr s.heap _ _ ?hnp2 _ _]
      · exact hchain'
      case hnp2 =>
        intro x hxl
        unfold npAt
        rw [heapGet_modify]
        by_cases hxr : rid = x
        · rw [if_pos hxr]
          subst hxr
          rw [hg]
          rfl
        · rw [if_neg hxr]
    have hg2 : heapGet (heapModify s.heap rid fun q => { q with uvreq := none }) rid
        = some { req with uvreq := none } := by
      rw [heapGet_modify, if_pos rfl, hg]
      rfl
    have hunl := chain_unlink l1 rid l2 _ s.alocal.requests.next ReqPtr.sentinel
      { req with uvreq := none } hchain2 hnd'
      (by intro a ha; exact absurd ha (by simp)) hg2
    have hridnot : rid ∉ l1 ++ l2 := by
      rw [List.nodup_append] at hnd'
      intro hmem2
      rcases List.mem_append.mp hmem2 with hh | hh
      · exact hnd'.2.2 hh (List.mem_cons_self _ _)
      · exact (List.nodup_cons.mp hnd'.2.1).1 hh
    have hchain3 : chainIs (heapFree (unlinkWrites
          (heapModify s.heap rid fun q => { q with uvreq := none }) rid req.prev req.next) rid)
        (l1 ++ l2) (if l1 = [] then req.next else s.alocal.requests.next)
        ReqPtr.sentinel = true := by
      rw [chainIs_congr (unlinkWrites
          (heapModify s.heap rid fun q => { q with uvreq := none }) rid req.prev req.next)
        _ (l1 ++ l2) ?hnp3 _ _]
      · exact hunl
      case hnp3 =>
        intro x hx
        unfold npAt
        rw [heapGet_free, if_neg (fun hh => hridnot (by rw [hh]; exact hx))]
    have hstart' : (async_request_resume s rid u err).1.alocal.requests.next
        = (if l1 = [] then req.next else s.alocal.requests.next) := by
      rw [hspec.2]
      rcases hshape.1 with ⟨hl1e, _, hpe⟩ | ⟨a, ha, hpe⟩
      · rw [if_pos hpe, if_pos hl1e]
      · have hl1ne : l1 ≠ [] := by
          intro hh
          rw [hh] at ha
          cases ha
        rw [if_neg (by rw [hpe]; intro hh; cases hh), if_neg hl1ne]
    have hregOk : registryOk (async_request_resume s rid u err).1 = true := by
      unfold registryOk
      rw [hkeys, hl, filter_middle l1 rid l2 hnd', hstart', hspec.1]
      exact hchain3
    refine ⟨⟨hregOk, ?_, ?_, ?_⟩, Or.inr ⟨rid, ?_, hkeys, hmem, hobs.2.2.2⟩⟩
    · rw [hkeys]
      exact List.Pairwise.sublist (List.filter_sublist _) hpw
    · intro i hi
      rw [hkeys] at hi
      rw [hobs.2.2.2]
      exact hbd i (List.mem_of_mem_filter hi)
    · intro u' rid' huv'
      rw [hobs.2.1] at huv'
      by_cases hu' : u' = u
      · subst hu'
        rw [uvGet_uvSet_self] at huv'
        cases huv'
      · rw [uvGet_uvSet_ne _ _ _ _ hu'] at huv'
        obtain ⟨r', hgr', hur'⟩ := huv u' rid' huv'
        have hne : rid' ≠ rid := by
          intro hh
          subst hh
          rw [hg] at hgr'
          have : r' = req := by injection hgr' with hh2; exact hh2.symm
          subst this
          rw [hur] at hur'
          have : u = u' := by injection hur'
          exact hu' this.symm
        have hmap : (heapGet (async_request_resume s rid u err).1.heap rid').map (·.uvreq)
            = (heapGet s.heap rid').map (·.uvreq) := by
          rw [hspec.1, heapGet_free, if_neg (fun hh => hne hh.symm), unlinkWrites_uvreq,
            heapGet_modify, if_neg (fun hh => hne hh.symm)]
        rw [hgr'] at hmap
        cases hfin : heapGet (async_request_resume s rid u err).1.heap rid' with
        | none => rw [hfin] at hmap; simp at hmap
        | some r2 =>
          rw [hfin] at hmap
          simp only [Option.map_some'] at hmap
          have : r2.uvreq = r'.uvreq := by injection hmap
          exact ⟨r2, rfl, by rw [this, hur']⟩
    · rw [hobs.1]
      rfl

theorem initState_inv (loop : Int) : InvP (initState loop) := by
  refine ⟨rfl, List.Pairwise.nil, ?_, ?_⟩
  · intro i hi
    simp [initState, regList] at hi
  · intro u rid h
    simp [initState, uvGet] at h

theorem run_inv (lv : Int) : ∀ (tr : List AsyncOp) (s : AsyncState) (begun comp : List Nat),
    InvP s →
    regList s = (begun.filter (fun i => decide (i ∉ comp))).reverse →
    (∀ c ∈ comp, c < s.nextId) →
    InvP (runTrace lv s tr).1 ∧
    regList (runTrace lv s tr).1 =
      ((begun ++ (runTrace lv s tr).2.1).filter
        (fun i => decide (i ∉ comp ++ (runTrace lv s tr).2.2))).reverse ∧
    (∀ c ∈ comp ++ (runTrace lv s tr).2.2, c < (runTrace lv s tr).1.nextId) := by
  intro tr
  induction tr with
  | nil =>
    intro s begun comp hInv hreg hcomp
    simp only [runTrace]
    refine ⟨hInv, ?_, ?_⟩
    · simpa using hreg
    · simpa using hcomp
  | cons op tr ih =>
    intro s begun comp hInv hreg hcomp
    cases op with
    | begin u k scope =>
      obtain ⟨hInv1, hkeys, hnid⟩ := begin_preserves s scope u k lv hInv
      have hfresh : s.nextId ∉ comp := fun hc => absurd (hcomp _ hc) (lt_irrefl _)
      have hreg1 : regList (beginAwait s scope u k lv).1
          = ((begun ++ [s.nextId]).filter (fun i => decide (i ∉ comp))).reverse := by
        rw [hkeys, hreg, List.filter_append]
        have hsing : [s.nextId].filter (fun i => decide (i ∉ comp)) = [s.nextId] := by
          simp [hfresh]
        rw [hsing, List.reverse_append]
        rfl
      have hcomp1 : ∀ c ∈ comp, c < (beginAwait s scope u k lv).1.nextId := by
        intro c hc
        rw [hnid]
        have := hcomp c hc
        omega
      have hihres := ih (beginAwait s scope u k lv).1 (begun ++ [s.nextId]) comp
        hInv1 hreg1 hcomp1
      have hrun : runTrace lv s (AsyncOp.begin u k scope :: tr)
          = ((runTrace lv (beginAwait s scope u k lv).1 tr).1,
             s.nextId :: (runTrace lv (beginAwait s scope u k lv).1 tr).2.1,
             (runTrace lv (beginAwait s scope u k lv).1 tr).2.2) := rfl
      rw [hrun]
      refine ⟨hihres.1, ?_, hihres.2.2⟩
      have := hihres.2.1
      simpa [List.append_assoc] using this
    | complete u err =>
      obtain ⟨hInv1, hcase⟩ := complete_preserves s u err hInv
      have hrun : runTrace lv s (AsyncOp.complete u err :: tr)
          = ((runTrace lv (async_req_resume s u err).1 tr).1,
             (runTrace lv (async_req_resume s u err).1 tr).2.1,
             (async_req_resume s u err).2.map (·.rid)
               ++ (runTrace lv (async_req_resume s u err).1 tr).2.2) := rfl
      rw [hrun]
      rcases hcase with hnoop | ⟨rid, hev, hkeys, hmem, hnid⟩
      · have hs1 : (async_req_resume s u err).1 = s := by rw [hnoop]
        have hev0 : (async_req_resume s u err).2 = [] := by rw [hnoop]
        rw [hs1, hev0]
        have hihres := ih s begun comp hInv hreg hcomp
        exact ⟨hihres.1, by simpa using hihres.2.1, by simpa using hihres.2.2⟩
      · have hfilterstep : regList (async_req_resume s u err).1
            = (begun.filter (fun i => decide (i ∉ comp ++ [rid]))).reverse := by
          rw [hkeys, hreg, List.filter_reverse, List.filter_filter]
          have hcongr : ∀ a ∈ begun,
              (decide (a ≠ rid) && decide (a ∉ comp)) = decide (a ∉ comp ++ [rid]) := by
            intro a _
            by_cases h1 : a = rid <;> by_cases h2 : a ∈ comp <;> simp [h1, h2]
          rw [List.filter_congr hcongr]
        have hcomp1 : ∀ c ∈ comp ++ [rid], c < (async_req_resume s u err).1.nextId := by
          intro c hc
          rw [hnid]
          rcases List.mem_append.mp hc with hc | hc
          · exact hcomp c hc
          · have hcr : c = rid := by simpa using hc
            rw [hcr]
            exact hInv.2.2.1 rid hmem
        have hihres := ih (async_req_resume s u err).1 begun (comp ++ [rid])
          hInv1 hfilterstep hcomp1
        rw [hev]
        refine ⟨hihres.1, ?_, ?_⟩
        · have := hihres.2.1
          simpa [List.append_assoc] using this
        · have := hihres.2.2
          simpa [List.append_assoc] using this

/-! ## Claim theorems -/

/-- C1: for any single operation record, invoking `async_req_resume`
(completeOperation) twice resumes the associated continuation exactly once and
the second call is a no-op: the first call clears both back-references
(`uvreq->data` and `req->uvreq`), unlinks and frees the request, and invokes
the captured resumption strategy (here the default strategy, which performs
exactly one `lh_release_resume`); the second call finds a `NULL`
back-reference and changes nothing. -/
theorem C1_complete_twice (s : AsyncState) (scope : ScopePtr) (u k : Nat)
    (lv err1 err2 : Int) :
    (async_req_resume (beginAwait s scope u k lv).1 u err1).2 =
      [{ rid := (beginAwait s scope u k lv).2, resumefun := some Strategy.default,
         resume := some k, localv := lv, uvreq := u, err := err1 }] ∧
    async_resume_default (some k) lv err1 = [{ resume := k, localv := lv, res := err1 }] ∧
    uvGet (async_req_resume (beginAwait s scope u k lv).1 u err1).1.uvdata u = none ∧
    heapGet (async_req_resume (beginAwait s scope u k lv).1 u err1).1.heap
      (beginAwait s scope u k lv).2 = none ∧
    async_req_resume (async_req_resume (beginAwait s scope u k lv).1 u err1).1 u err2 =
      ((async_req_resume (beginAwait s scope u k lv).1 u err1).1, []) := by
  obtain ⟨hrid, huv, hheap⟩ := beginAwait_obs s scope u k lv
  rw [hrid]
  have huv1 : uvGet (beginAwait s scope u k lv).1.uvdata u = some s.nextId := by
    rw [huv]; exact uvGet_uvSet_self ..
  have hres := async_request_resume_obs (beginAwait s scope u k lv).1 s.nextId u err1
    _ hheap (by simp) (by simp)
  have huv2 : uvGet (async_request_resume (beginAwait s scope u k lv).1 s.nextId u err1).1.uvdata
      u = none := by
    rw [hres.2.1]; exact uvGet_uvSet_self ..
  simp only [async_req_resume, huv1]
  refine ⟨hres.1, by simp [async_resume_default, lh_value_int], huv2, hres.2.2.1, ?_⟩
  simp only [async_req_resume, huv2]

/-- C3: for every scope `s` and candidate ancestor `a` in a scope tree built by
nested scope creation, `in_scope_of s a` returns `true` iff `a` appears on the
parent chain starting from `s` inclusive (the chain ends at the `NULL` root
scope), and `false` when the chain is exhausted without encountering `a`. -/
theorem C3_in_scope_of_iff_chain :
    ∀ s a : ScopePtr, in_scope_of s a = true ↔ a ∈ scope_chain s := by
  intro s
  induction s with
  | null =>
    intro a
    simp [in_scope_of, scope_chain, eq_comm]
  | node i p ih =>
    intro a
    by_cases h : ScopePtr.node i p = a
    · simp [in_scope_of, scope_chain, h]
    · have h2 : ¬a = ScopePtr.node i p := fun hh => h hh.symm
      simp [in_scope_of, scope_chain, h, h2, ih]

/-- C10: for every scope `s` (including the `NULL` root scope),
`in_scope_of s NULL` returns `true`: the parent-chain walk stops at `NULL` and
then compares equal to the `NULL` top, so a cancellation sweep of the root
scope matches every request. -/
theorem C10_in_scope_of_null :
    ∀ s : ScopePtr, in_scope_of s .null = true := by
  intro s
  induction s with
  | null => rfl
  | node i p ih => simp [in_scope_of, ih]

/-- C2: after every sequence of `beginAwait`/`completeOperation` steps under one
root async handler, the registry chain hanging off the sentinel spells exactly
the requests begun but not yet completed, most recently begun first, with every
node's `prev` pointing back at its predecessor (`registryOk`); the pending list
is the begun-ids filtered by the completed-ids, reversed, and is strictly
decreasing (ids grow with allocation time, so this is reverse-insertion order).
In particular, beginning awaits A then B yields registry `[B, A]`, completing B
leaves `[A]` and resumes exactly B, and completing A empties the registry. -/
theorem C2_registry_invariant :
    (∀ (lv loop : Int) (tr : List AsyncOp),
      registryOk (runTrace lv (initState loop) tr).1 = true ∧
      regList (runTrace lv (initState loop) tr).1 =
        ((runTrace lv (initState loop) tr).2.1.filter
          (fun i => decide (i ∉ (runTrace lv (initState loop) tr).2.2))).reverse ∧
      List.Pairwise (· > ·) (regList (runTrace lv (initState loop) tr).1)) ∧
    (regList (runTrace 0 (initState 0) [.begin 1 11 .null, .begin 2 22 .null]).1 = [1, 0] ∧
     regList (runTrace 0 (initState 0)
       [.begin 1 11 .null, .begin 2 22 .null, .complete 2 7]).1 = [0] ∧
     (runTrace 0 (initState 0)
       [.begin 1 11 .null, .begin 2 22 .null, .complete 2 7]).2.2 = [1] ∧
     regList (runTrace 0 (initState 0)
       [.begin 1 11 .null, .begin 2 22 .null, .complete 2 7, .complete 1 9]).1 = []) := by
  constructor
  · intro lv loop tr
    have hrun := run_inv lv tr (initState loop) [] []
      (initState_inv loop) (by simp [initState, regList]) (by simp)
    refine ⟨hrun.1.1, ?_, hrun.1.2.1⟩
    simpa using hrun.2.1
  · exact ⟨by decide, by decide, by decide, by decide⟩

/-- C4: at root-handler teardown `_async_release` asserts the registry is
empty: after any trace of operations, the release succeeds exactly when no
request is pending, and a non-empty registry drives the invariant-violation
(assert) path instead of silent success. -/
theorem C4_teardown_assert (lv loop : Int) (tr : List AsyncOp) :
    _async_release (some (runTrace lv (initState loop) tr).1.alocal)
      = if regList (runTrace lv (initState loop) tr).1 = [] then ReleaseResult.released
        else ReleaseResult.assertFailed := by
  have hrun := run_inv lv tr (initState loop) [] []
    (initState_inv loop) (by simp [initState, regList]) (by simp)
  have hchain := hrun.1.1
  unfold registryOk at hchain
  cases hrl : regList (runTrace lv (initState loop) tr).1 with
  | nil =>
    rw [hrl] at hchain
    have hnull : (runTrace lv (initState loop) tr).1.alocal.requests.next = ReqPtr.null := by
      simpa [chainIs] using hchain
    simp [_async_release, hnull]
  | cons j l2 =>
    rw [hrl] at hchain
    simp only [chainIs, Bool.and_eq_true, decide_eq_true_eq] at hchain
    simp [_async_release, hchain.1]

/-- C5: `asyncx_await` returns the completion status code unchanged (negative
codes included) and raises nothing; the thin wrapper `async_await` (via
`check_uv_err`) throws exactly when the code is negative, and the thrown
failure carries the platform error string `uv_strerror(code)`. -/
theorem C5_await_error_translation (strerror : Int → String) (status : Int)
    (h1 : -2 ^ 31 ≤ status) (h2 : status < 2 ^ 31) :
    asyncx_await status = status ∧
    async_await strerror status =
      (if status < 0 then Except.error ⟨status, strerror status⟩ else Except.ok ()) := by
  have hx : asyncx_await status = status := by
    unfold asyncx_await lh_int_value lh_value_int
    have hlo : 0 ≤ status + 2 ^ 31 := by linarith
    have hhi : status + 2 ^ 31 < 2 ^ 32 := by
      have h32 : (2 : Int) ^ 32 = 2 ^ 31 + 2 ^ 31 := by norm_num
      linarith
    rw [Int.emod_eq_of_lt hlo hhi]
    ring
  refine ⟨hx, ?_⟩
  unfold async_await check_uv_err
  rw [hx]

/-- Witness for C5 at the concrete status code `-4095` (libuv's `UV_EOF`). -/
theorem C5_await_error_translation_witness :
    (-2 ^ 31 ≤ (-4095 : Int)) ∧ ((-4095 : Int) < 2 ^ 31) ∧
    (asyncx_await (-4095) = -4095 ∧
     async_await (fun _ => "end of file") (-4095) =
       (if (-4095 : Int) < 0 then Except.error ⟨-4095, "end of file"⟩ else Except.ok ())) :=
  ⟨by decide, by decide,
    C5_await_error_translation (fun _ => "end of file") (-4095) (by decide) (by decide)⟩

/-- C7: under a channel adapter nested in a root handler, the loop-identity
query and the register-request operation are pure pass-throughs: the adapter's
operation function leaves the enclosing handler's state exactly as the root
operation would, and tail-resumes with exactly the answer the root operation
delivers directly. -/
theorem C7_channel_passthrough (parent : AsyncState) (plocalv localv : Int) (rid : Nat) :
    _channel_async_uv_loop parent plocalv localv =
      ((_async_uv_loop parent plocalv).1,
        .tailResume localv (outValue (_async_uv_loop parent plocalv).2)) ∧
    _channel_async_req_register parent plocalv localv rid =
      ((_async_req_register parent plocalv rid).1,
        .tailResume localv (outValue (_async_req_register parent plocalv rid).2)) := by
  constructor <;> rfl

/-- C9: if `calloc` fails while installing the root async handler,
`async_handler` returns `lh_value_null` immediately; no handler-local state is
installed and the body action is never run (the result does not depend on it). -/
theorem C9_alloc_failure (loop : Int) (handleA handleB : async_local_t → Int) :
    async_handler false loop handleA = { result := lh_value_null, installed := none } ∧
    async_handler false loop handleA = async_handler false loop handleB := by
  constructor <;> rfl

/-- C6: both await operation functions store the captured continuation and the
carrier value into the request and attach a resumption strategy only when none
is present (the root handler attaches the default strategy, the channel
adapter the channel strategy; an already-present strategy is left unchanged),
then return `lh_value_null` without resuming, exiting to the driving loop. -/
theorem C6_await_capture (s : AsyncState) (rid : Nat) (r : Option Nat) (lv : Int) :
    heapGet ((_async_req_await r lv s rid).1).heap rid
      = (heapGet s.heap rid).map (fun q =>
          { q with localv := lv, resume := r,
                   resumefun := match q.resumefun with
                                | none => some Strategy.default
                                | some f => some f }) ∧
    (_async_req_await r lv s rid).2 = .exit lh_value_null ∧
    heapGet ((_channel_async_req_await r lv s rid).1).heap rid
      = (heapGet s.heap rid).map (fun q =>
          { q with localv := lv, resume := r,
                   resumefun := match q.resumefun with
                                | none => some Strategy.channel
                                | some f => some f }) ∧
    (_channel_async_req_await r lv s rid).2 = .exit lh_value_null := by
  refine ⟨?_, rfl, ?_, rfl⟩ <;>
    simp [_async_req_await, _channel_async_req_await, writeReq, heapGet_modify]

/-- C8: of the three operations of the root handler only `req_await` suspends:
the table declares it `LH_OP_GENERAL` while `uv_loop` and `req_register` are
`LH_OP_TAIL_NOOP`; their operation functions end in a tail resume, the
loop-identity query returns exactly the loop the handler was installed with
(after any trace of operations) and mutates no handler state, and the await
operation function ends by exiting to the driving loop. -/
theorem C8_only_await_suspends :
    _async_ops = [(.OP_GENERAL, "async/req_await"), (.OP_TAIL_NOOP, "async/uv_loop"),
                  (.OP_TAIL_NOOP, "async/req_register")] ∧
    (∀ s localv, _async_uv_loop s localv = (s, .tailResume localv s.alocal.loop)) ∧
    (∀ lv loop tr localv,
       _async_uv_loop (runTrace lv (initState loop) tr).1 localv
         = ((runTrace lv (initState loop) tr).1, .tailResume localv loop)) ∧
    (∀ s localv rid, (_async_req_register s localv rid).2 = .tailResume localv lh_value_null) ∧
    (∀ r localv s rid, (_async_req_await r localv s rid).2 = .exit lh_value_null) := by
  refine ⟨rfl, fun s localv => rfl, ?_, fun s localv rid => rfl, fun r localv s rid => rfl⟩
  intro lv loop tr localv
  have hl := runTrace_loop lv tr (initState loop)
  simp only [_async_uv_loop]
  rw [hl]
  rfl
